import Mathlib

/-
Verification of the bestgres table-session engine (TableBrowser / EditableCell):
row identity encoding, the SQL query compiler, cell-value coercion, the local
page-cache mutations, the generation-counter fetch sequencing and the debounce
logic, shallowly embedded from the TypeScript source.

Modelling conventions: JS scalar cell values (null / boolean / number / string)
are the inductive `Value`, with numbers modelled as integers; strings are
manipulated as `List Char` internally and wrapped in `String` at the
boundaries.
-/

namespace Bestgres

/-- A scalar cell value as held by the table browser: null, boolean, number or
string.  Numbers are modelled as integers (the JS code performs no arithmetic
on them; they are serialized and compared only). -/
inductive Value where
  | vnull : Value
  | vbool : Bool → Value
  | vnum : Int → Value
  | vstr : String → Value
deriving DecidableEq, Repr

/-- JS whitespace recognised by `String.prototype.trim` (ASCII subset). -/
def isWsChar (c : Char) : Bool :=
  c == ' ' || c == '\t' || c == '\n' || c == '\r' || c == '\x0b' || c == '\x0c'

/-- `raw.trim()` on the character list. -/
def trimL (l : List Char) : List Char :=
  ((l.dropWhile isWsChar).reverse.dropWhile isWsChar).reverse

/-- `raw.trim()`. -/
def jsTrim (s : String) : String := String.mk (trimL s.data)

/-- ASCII lower-casing of one character, as `toLowerCase` acts on the ASCII
range (the code only compares against ASCII keywords). -/
def toLowerCh (c : Char) : Char :=
  if 'A' ≤ c ∧ c ≤ 'Z' then Char.ofNat (c.toNat + 32) else c

/-- `s.toLowerCase()` (ASCII). -/
def jsToLower (s : String) : String := String.mk (s.data.map toLowerCh)

/-- Decimal digit to its character. -/
def digChar : Nat → Char
  | 0 => '0' | 1 => '1' | 2 => '2' | 3 => '3' | 4 => '4'
  | 5 => '5' | 6 => '6' | 7 => '7' | 8 => '8' | _ => '9'

/-- Character to decimal digit value (10 for non-digits). -/
def toDigNat (c : Char) : Nat :=
  match c with
  | '0' => 0 | '1' => 1 | '2' => 2 | '3' => 3 | '4' => 4
  | '5' => 5 | '6' => 6 | '7' => 7 | '8' => 8 | '9' => 9
  | _ => 10

def isDigitCh (c : Char) : Bool := '0' ≤ c && c ≤ '9'

/-- Little-endian decimal digits of `n`, with explicit fuel so the definition
is structural (kernel-reducible). -/
def natDigitsAux : Nat → Nat → List Nat
  | 0, _ => []
  | _ + 1, 0 => []
  | fuel + 1, n + 1 => (n + 1) % 10 :: natDigitsAux fuel ((n + 1) / 10)

def natDigits (n : Nat) : List Nat := natDigitsAux n n

/-- Decimal rendering of a natural number, as JS `String(n)` renders it. -/
def natStrL (n : Nat) : List Char :=
  if n = 0 then ['0'] else ((natDigits n).map digChar).reverse

/-- Decimal rendering of an integer, as JS `String(i)` renders it. -/
def intStrL (i : Int) : List Char :=
  if i < 0 then '-' :: natStrL i.natAbs else natStrL i.toNat

/-- `String(v)` for a scalar value (JS ToString). -/
def jsStringOfValue : Value → String
  | .vnull => "null"
  | .vbool true => "true"
  | .vbool false => "false"
  | .vnum n => String.mk (intStrL n)
  | .vstr s => s

/-- Value of a digit run, most significant first. -/
def digitsVal (l : List Char) : Nat := Nat.ofDigits 10 ((l.map toDigNat).reverse)

/-- Parse a non-empty all-digit run. -/
def parseDigits (l : List Char) : Option Nat :=
  if l ≠ [] ∧ l.all isDigitCh then some (digitsVal l) else none

/-- JS `Number()` on already-trimmed text, restricted to the integer-literal
subset this code base produces and consumes (optional sign and a digit run;
the empty string is 0).  Fractions, exponents and hex literals are not
modelled: the engine only ever round-trips canonical integer renderings
through this function.  `none` stands for `NaN`. -/
def jsNumberL (l : List Char) : Option Int :=
  match l with
  | [] => some 0
  | c :: rest =>
    if c = '-' then
      match parseDigits rest with
      | some n => some (-(n : Int))
      | none => none
    else if c = '+' then
      match parseDigits rest with
      | some n => some ((n : Int))
      | none => none
    else
      match parseDigits (c :: rest) with
      | some n => some ((n : Int))
      | none => none

/- ## Row identity: JSON serialization of primary-key scalars

`getRowId` (TableBrowser) encodes a row's primary-key values as
`pk.map (v => JSON.stringify(v ?? null)).join("\x01")`; the delete path
decodes a selected id with `id.split("\x01").map(p => JSON.parse(p))`,
falling back to the raw part when parsing throws. -/

/-- The `"\x01"` join delimiter. -/
def delimCh : Char := '\x01'

/-- Hexadecimal digit character (lowercase, as `JSON.stringify` emits in
`\u00XX` escapes). -/
def hexChar : Nat → Char
  | 0 => '0' | 1 => '1' | 2 => '2' | 3 => '3' | 4 => '4'
  | 5 => '5' | 6 => '6' | 7 => '7' | 8 => '8' | 9 => '9'
  | 10 => 'a' | 11 => 'b' | 12 => 'c' | 13 => 'd' | 14 => 'e' | _ => 'f'

/-- Hexadecimal digit value (none for non-hex characters). -/
def hexVal (c : Char) : Option Nat :=
  if isDigitCh c then some (toDigNat c)
  else if c = 'a' ∨ c = 'A' then some 10
  else if c = 'b' ∨ c = 'B' then some 11
  else if c = 'c' ∨ c = 'C' then some 12
  else if c = 'd' ∨ c = 'D' then some 13
  else if c = 'e' ∨ c = 'E' then some 14
  else if c = 'f' ∨ c = 'F' then some 15
  else none

/-- One character of a JSON string body, escaped as ECMA-262
`QuoteJSONString` escapes it (`JSON.stringify`). -/
def escapeJsonChar (c : Char) : List Char :=
  if c = '"' then ['\\', '"']
  else if c = '\\' then ['\\', '\\']
  else if c = '\x08' then ['\\', 'b']
  else if c = '\t' then ['\\', 't']
  else if c = '\n' then ['\\', 'n']
  else if c = '\x0c' then ['\\', 'f']
  else if c = '\r' then ['\\', 'r']
  else if c.toNat < 32 then
    ['\\', 'u', '0', '0', hexChar (c.toNat / 16), hexChar (c.toNat % 16)]
  else [c]

def escapeJsonStr : List Char → List Char
  | [] => []
  | c :: t => escapeJsonChar c ++ escapeJsonStr t

/-- `JSON.stringify` of a scalar value. -/
def jsonStringifyL : Value → List Char
  | .vnull => "null".data
  | .vbool true => "true".data
  | .vbool false => "false".data
  | .vnum n => intStrL n
  | .vstr s => '"' :: (escapeJsonStr s.data ++ ['"'])

/-- `parts.join(delim)`. -/
def joinD (d : Char) : List (List Char) → List Char
  | [] => []
  | [p] => p
  | p :: ps => p ++ d :: joinD d ps

/-- `s.split(delim)` for a one-character separator. -/
def splitOnD (d : Char) : List Char → List (List Char)
  | [] => [[]]
  | c :: t =>
    if c = d then [] :: splitOnD d t
    else
      match splitOnD d t with
      | [] => [[c]]
      | h :: rs => (c :: h) :: rs

/-- Parse the body of a JSON string (after the opening quote), returning the
decoded content and the input remaining after the closing quote.  Raw control
characters are rejected, as `JSON.parse` rejects them. -/
def parseStrBody : List Char → Option (List Char × List Char)
  | [] => none
  | c :: t =>
    if c = '"' then some ([], t)
    else if c = '\\' then
      match t with
      | [] => none
      | e :: t2 =>
        if e = '"' then (parseStrBody t2).map (fun p => ('"' :: p.1, p.2))
        else if e = '\\' then (parseStrBody t2).map (fun p => ('\\' :: p.1, p.2))
        else if e = '/' then (parseStrBody t2).map (fun p => ('/' :: p.1, p.2))
        else if e = 'b' then (parseStrBody t2).map (fun p => ('\x08' :: p.1, p.2))
        else if e = 't' then (parseStrBody t2).map (fun p => ('\t' :: p.1, p.2))
        else if e = 'n' then (parseStrBody t2).map (fun p => ('\n' :: p.1, p.2))
        else if e = 'f' then (parseStrBody t2).map (fun p => ('\x0c' :: p.1, p.2))
        else if e = 'r' then (parseStrBody t2).map (fun p => ('\r' :: p.1, p.2))
        else if e = 'u' then
          match t2 with
          | h1 :: h2 :: h3 :: h4 :: t3 =>
            match hexVal h1, hexVal h2, hexVal h3, hexVal h4 with
            | some a, some b, some c3, some d =>
              (parseStrBody t3).map
                (fun p => (Char.ofNat (((a * 16 + b) * 16 + c3) * 16 + d) :: p.1, p.2))
            | _, _, _, _ => none
          | _ => none
        else none
    else if c.toNat < 32 then none
    else (parseStrBody t).map (fun p => (c :: p.1, p.2))

/-- Dispatch on the first character of a non-keyword JSON scalar document:
a string, a negative numeral or a plain numeral. -/
def parseJsonScalarCore (c : Char) (t : List Char) : Option Value :=
  if c = '"' then
    match parseStrBody t with
    | some (s, []) => some (.vstr (String.mk s))
    | _ => none
  else if c = '-' then
    match parseDigits t with
    | some n => some (.vnum (-(n : Int)))
    | none => none
  else
    match parseDigits (c :: t) with
    | some n => some (.vnum ((n : Int)))
    | none => none

/-- `JSON.parse` restricted to scalar documents, which is all the identity
encoding ever produces: `null`, `true`, `false`, an integer numeral or a
string.  Fractions, exponents and JSON's leading-zero restriction are not
modelled (identity strings only contain canonical integer numerals). -/
def parseJsonScalar (l : List Char) : Option Value :=
  if l = "null".data then some .vnull
  else if l = "true".data then some (.vbool true)
  else if l = "false".data then some (.vbool false)
  else
    match l with
    | [] => none
    | c :: t => parseJsonScalarCore c t

/-- `getRowId` (TableBrowser): the identity string of a primary-key value
tuple, `values.map(v => JSON.stringify(v ?? null)).join("\x01")`. -/
def encodeRowId (pkVals : List Value) : String :=
  String.mk (joinD delimCh (pkVals.map jsonStringifyL))

/-- `row[pk] ?? null` on an attribute row keyed by column name. -/
def lookupOrNull (row : List (String × Value)) (col : String) : Value :=
  match row.lookup col with
  | some v => v
  | none => .vnull

/-- `getRowId` on a grid row record: empty string when there is no primary
key, else the joined serialization of its primary-key cells. -/
def getRowId (pkCols : List String) (row : List (String × Value)) : String :=
  if pkCols = [] then "" else encodeRowId (pkCols.map (lookupOrNull row))

/-- The delete path's decoding of a selected identity string:
`id.split("\x01")`, each part `JSON.parse`d, falling back to the raw part
text when parsing throws. -/
def decodeRowId (id : String) : List Value :=
  (splitOnD delimCh id.data).map (fun part =>
    match parseJsonScalar part with
    | some v => v
    | none => .vstr (String.mk part))

/- ## QueryCompiler (TableBrowser `buildWhereClause` / `buildOrderClause` /
`buildSelectSql` / `buildCountSql`) -/

inductive SortDir where
  | asc : SortDir
  | desc : SortDir
deriving DecidableEq, Repr

/-- `SortState`: at most one sorted column; `direction` null means no sort. -/
structure SortState where
  column : String
  direction : Option SortDir
deriving DecidableEq, Repr

/-- `sort.direction.toUpperCase()`. -/
def sortDirUpper : SortDir → String
  | .asc => "ASC"
  | .desc => "DESC"

/-- The `"${name}"` identifier template: the name is interpolated verbatim
between double quotes (no escaping is applied by the source). -/
def quoteIdent (name : String) : String := "\"" ++ name ++ "\""

/-- `trimmed.replace(/'/g, "''")` on the character list. -/
def escapeSqL : List Char → List Char
  | [] => []
  | c :: t => if c = '\'' then '\'' :: '\'' :: escapeSqL t else c :: escapeSqL t

/-- `trimmed.replace(/'/g, "''")`. -/
def escapeSq (s : String) : String := String.mk (escapeSqL s.data)

/-- One iteration of the `for (const [col, val] of Object.entries(columnFilters))`
loop: skip blank filters, render the reserved `null` / `not null` tokens as
IS NULL / IS NOT NULL, anything else as a case-insensitive text-contains
match. -/
def whereStep (parts : List String) (cv : String × String) : List String :=
  let trimmed := jsTrim cv.2
  if trimmed = "" then parts
  else if jsToLower trimmed = "null" then
    parts ++ [quoteIdent cv.1 ++ " IS NULL"]
  else if jsToLower trimmed = "not null" then
    parts ++ [quoteIdent cv.1 ++ " IS NOT NULL"]
  else
    parts ++ [quoteIdent cv.1 ++ "::text ILIKE '%" ++ escapeSq trimmed ++ "%'"]

def buildWhereParts (filters : List (String × String)) : List String :=
  filters.foldl whereStep []

/-- `buildWhereClause`: the collected conjuncts joined by AND, prefixed by
` WHERE `, or the empty string when no filter is active. -/
def buildWhereClause (filters : List (String × String)) : String :=
  if (buildWhereParts filters).length > 0 then
    " WHERE " ++ String.intercalate " AND " (buildWhereParts filters)
  else ""

/-- `buildOrderClause`: empty when no column or no direction is set. -/
def buildOrderClause (sort : SortState) : String :=
  match sort.direction with
  | none => ""
  | some d =>
    if sort.column = "" then ""
    else " ORDER BY " ++ quoteIdent sort.column ++ " " ++ sortDirUpper d

/-- `${n}` for a non-negative count (LIMIT / OFFSET). -/
def natToString (n : Nat) : String := String.mk (natStrL n)

/-- `buildSelectSql(limit, offset)`. -/
def buildSelectSql (schema table : String) (filters : List (String × String))
    (sort : SortState) (limit offset : Nat) : String :=
  "SELECT * FROM " ++ quoteIdent schema ++ "." ++ quoteIdent table ++
    buildWhereClause filters ++ buildOrderClause sort ++
    " LIMIT " ++ natToString limit ++ " OFFSET " ++ natToString offset

/-- `buildCountSql()`: same filter, no sort, no paging. -/
def buildCountSql (schema table : String) (filters : List (String × String)) : String :=
  "SELECT COUNT(*) FROM " ++ quoteIdent schema ++ "." ++ quoteIdent table ++
    buildWhereClause filters

/-- The spec's description of one WHERE conjunct, written from the spec's
words for comparison with `buildWhereClause`: one conjunct per non-blank
filter entry; case-insensitive `null` / `not null` tokens render as IS NULL /
IS NOT NULL; every other non-empty value renders as a case-insensitive
text-contains match. -/
def whereConjunctSpec (cv : String × String) : Option String :=
  let trimmed := jsTrim cv.2
  if trimmed = "" then none
  else if jsToLower trimmed = "null" then some (quoteIdent cv.1 ++ " IS NULL")
  else if jsToLower trimmed = "not null" then some (quoteIdent cv.1 ++ " IS NOT NULL")
  else some (quoteIdent cv.1 ++ "::text ILIKE '%" ++ escapeSq trimmed ++ "%'")

/-- The spec's WHERE clause: the conjuncts of the non-blank entries joined by
AND. -/
def whereClauseSpec (filters : List (String × String)) : String :=
  let parts := filters.filterMap whereConjunctSpec
  if parts = [] then "" else " WHERE " ++ String.intercalate " AND " parts

/-- The scanner behind "no unescaped quote": every occurrence of `q` in the
list belongs to an adjacent doubled pair. -/
def quotesPaired (q : Char) : List Char → Bool
  | [] => true
  | c :: t =>
    if c = q then
      match t with
      | c2 :: t2 => if c2 = q then quotesPaired q t2 else false
      | [] => false
    else quotesPaired q t

/-- The text a quoted identifier wraps: everything between the outer double
quotes. -/
def identBody (quoted : String) : String :=
  String.mk ((quoted.data.drop 1).dropLast)

/-- The text placed between the single quotes of a rendered filter literal:
`'%` … escaped filter text … `%'`. -/
def filterLiteralBody (v : String) : List Char :=
  '%' :: (escapeSqL (jsTrim v).data ++ ['%'])

/- ## ColumnCoercion (`parseCellValue` in TableBrowser, `parseValue` in
EditableCell — the two are textually identical) -/

/-- `parseCellValue(raw)`: trimmed empty / `null` → null; `true` / `false` →
boolean; a successful numeric parse of non-empty text → number; else the
trimmed string verbatim. -/
def parseCellValue (raw : String) : Value :=
  let trimmed := jsTrim raw
  if jsToLower trimmed = "null" ∨ trimmed = "" then .vnull
  else if jsToLower trimmed = "true" then .vbool true
  else if jsToLower trimmed = "false" then .vbool false
  else
    match jsNumberL trimmed.data with
    | some n => if trimmed = "" then .vstr trimmed else .vnum n
    | none => .vstr trimmed

/- ## PageStore: the local row cache and its mutations (TableBrowser) -/

/-- `columnNames.indexOf(name)` (`none` stands for JS `-1`). -/
def jsIndexOf (name : String) : List String → Option Nat
  | [] => none
  | c :: t => if c = name then some 0 else (jsIndexOf name t).map (· + 1)

/-- `rows.findIndex(p)` (`none` stands for JS `-1`). -/
def jsFindIndex (p : α → Bool) : List α → Option Nat
  | [] => none
  | a :: t => if p a then some 0 else (jsFindIndex p t).map (· + 1)

/-- `arr.filter((_, i) => keep i)` from position `i0`. -/
def filterIdxAux (keep : Nat → Bool) : Nat → List α → List α
  | _, [] => []
  | i, a :: t =>
    if keep i then a :: filterIdxAux keep (i + 1) t else filterIdxAux keep (i + 1) t

/-- `arr.filter((_, i) => keep i)`. -/
def filterIdx (keep : Nat → Bool) (l : List α) : List α := filterIdxAux keep 0 l

/-- The primary-key cells of a positional row:
`primaryKeyColumns.map(pk => { const colIdx = columnNames.indexOf(pk);
return colIdx >= 0 ? row[colIdx] : undefined })` with the serializer's
`?? null` applied (missing column and out-of-range cell are both null). -/
def pkValuesOfRow (cols pkCols : List String) (row : List Value) : List Value :=
  pkCols.map (fun pk =>
    match jsIndexOf pk cols with
    | some i => (row[i]?).getD Value.vnull
    | none => Value.vnull)

/-- The identity string `handleDelete` recomputes for a cached positional
row: `pkVals.map(v => JSON.stringify(v ?? null)).join("\x01")`. -/
def rowIdPos (cols pkCols : List String) (row : List Value) : String :=
  String.mk (joinD delimCh ((pkValuesOfRow cols pkCols row).map jsonStringifyL))

/-- The local cache update of `handleDelete` after the remote delete
succeeds: for each selected id, `rows.findIndex` of the first cached row
whose recomputed identity equals it (`-1`, i.e. `none`, when absent); the
rows at the found indices are dropped and `totalCount` is decremented by the
number of selected ids, clamped at zero
(`Math.max(0, c - selectedIds.length)`). -/
def handleDelete (cols pkCols : List String) (selectedIds : List String)
    (rows : List (List Value)) (totalCount : Int) : List (List Value) × Int :=
  let indicesToRemove : List (Option Nat) :=
    selectedIds.map
      (fun id => jsFindIndex (fun row => rowIdPos cols pkCols row == id) rows)
  (filterIdx (fun i => ! indicesToRemove.contains (some i)) rows,
    max 0 (totalCount - (selectedIds.length : Int)))

/-- The page cache: rows and total-count estimate. -/
structure PageState where
  rows : List (List Value)
  totalCount : Option Int
deriving DecidableEq, Repr

/-- The local cache update of `handleCellSave` after the remote `update_cell`
succeeds: copy the targeted row, overwrite the targeted column's cell, leave
every other row and `totalCount` untouched; a missing row or an unknown
column name leaves the state unchanged (the early returns).  The assignment
is modelled as in-bounds `List.set`: rows are positionally aligned with the
column list (§3 of the spec), so the JS sparse-extension case is
unreachable. -/
def handleCellSave (cols : List String) (st : PageState) (rowIndex : Nat)
    (columnName : String) (newValue : Value) : PageState :=
  match st.rows[rowIndex]? with
  | none => st
  | some rowArr =>
    match jsIndexOf columnName cols with
    | none => st
    | some colIndex =>
      { st with rows := st.rows.set rowIndex (rowArr.set colIndex newValue) }

/- ## FetchSequencer: the `dataGeneration` counter and the refetch effect -/

/-- The payload of a completed refetch: the page rows and the extracted count
cell (`countRes.rows[0]?.[0]`; `none` models a count response with no cell,
in which case `setTotalCount` is skipped).  The `Number(cnt)` conversion is
abstracted as the integer itself. -/
structure PageResult where
  rows : List (List Value)
  cnt : Option Int

/-- The session state the refetch effect acts on: the `dataGeneration`
counter, the page cache, the surfaced error and the selection. -/
structure SessState where
  generation : Nat
  rows : List (List Value)
  totalCount : Option Int
  error : Option String
  selection : List String

/-- A filter/sort change: `setDataGeneration(g => g + 1)` re-runs the refetch
effect.  The re-run's cleanup sets the previous run's `cancelled` flag, and
the new run clears the error and the selection and issues a fetch whose
commit is keyed to the new generation.  Returns the new state and the issued
fetch's generation tag. -/
def issueRefetch (st : SessState) : SessState × Nat :=
  ({ st with generation := st.generation + 1, error := none, selection := [] },
    st.generation + 1)

/-- Completion of a refetch issued under generation `tag`.  The effect's
cleanup has set `cancelled` exactly when a newer generation has re-run the
effect, so the result commits iff `tag` is still the current generation: on
success rows are replaced and the count is replaced when the count cell is
present; on failure the error is surfaced and rows/count are untouched. -/
def refetchComplete (st : SessState) (tag : Nat)
    (outcome : Except String PageResult) : SessState :=
  if tag = st.generation then
    match outcome with
    | .ok r =>
      { st with
        rows := r.rows
        totalCount := (match r.cnt with | some n => some n | none => st.totalCount) }
    | .error e => { st with error := some e }
  else st

/-- Completion of a `loadMore` fetch: on success the new page is appended to
the cache (`setRows(prev => [...prev, ...res.rows])`); on failure the error
is surfaced and the cache is untouched. -/
def loadMoreComplete (st : SessState)
    (outcome : Except String (List (List Value))) : SessState :=
  match outcome with
  | .ok newRows => { st with rows := st.rows ++ newRows }
  | .error e => { st with error := some e }

/- ## Debounced filter edits (`handleFilterChange`) -/

/-- The debounce state of `handleFilterChange`: the current time, the filter
map (a JS object, modelled as an insertion-ordered association list), the
pending timeout's deadline, and the filter snapshots of the fetches fired so
far (each timer callback bumps `dataGeneration`, whose refetch compiles its
SQL from the then-current filters). -/
structure DebounceState where
  now : Nat
  filters : List (String × String)
  deadline : Option Nat
  fired : List (List (String × String))

/-- `{...prev, [col]: value}`: replace in place when the key exists, else
append. -/
def updateAssoc (m : List (String × String)) (col v : String) :
    List (String × String) :=
  match m with
  | [] => [(col, v)]
  | (k, w) :: t => if k = col then (k, v) :: t else (k, w) :: updateAssoc t col v

/-- Fire the pending timer if its deadline has been reached by time `t`: the
callback bumps `dataGeneration`, issuing exactly one fetch compiled from the
current filters. -/
def fireIfDue (st : DebounceState) (t : Nat) : DebounceState :=
  match st.deadline with
  | some d =>
    if d ≤ t then { st with deadline := none, fired := st.fired ++ [st.filters] }
    else st
  | none => st

/-- `handleFilterChange(col, value)` arriving at time `t`: a timer already
due fires first; then the filter map is updated, the pending timeout (if
any) is cleared (`clearTimeout`) and a fresh 400-unit timeout is scheduled. -/
def handleFilterChange (st : DebounceState) (t : Nat) (col v : String) :
    DebounceState :=
  let st1 := fireIfDue st t
  { st1 with
    now := t
    filters := updateAssoc st1.filters col v
    deadline := some (t + 400) }

def runEdits (st : DebounceState) (edits : List (Nat × String × String)) :
    DebounceState :=
  edits.foldl (fun st e => handleFilterChange st e.1 e.2.1 e.2.2) st

/-- Once the quiet period elapses, the pending timer fires. -/
def settleDebounce (st : DebounceState) : DebounceState :=
  match st.deadline with
  | some _ => { st with deadline := none, fired := st.fired ++ [st.filters] }
  | none => st

/- ## Round-trip lemmas for decimal rendering -/

theorem natDigitsAux_spec (fuel n : Nat) (h : n ≤ fuel) :
    Nat.ofDigits 10 (natDigitsAux fuel n) = n := by
  induction fuel generalizing n with
  | zero =>
    interval_cases n
    simp [natDigitsAux, Nat.ofDigits]
  | succ fuel ih =>
    match n with
    | 0 => simp [natDigitsAux, Nat.ofDigits]
    | m + 1 =>
      have hdiv : (m + 1) / 10 ≤ fuel := by
        have : (m + 1) / 10 < m + 1 := Nat.div_lt_self (Nat.succ_pos m) (by norm_num)
        omega
      simp only [natDigitsAux, Nat.ofDigits_cons, ih _ hdiv]
      omega

theorem natDigits_spec (n : Nat) : Nat.ofDigits 10 (natDigits n) = n :=
  natDigitsAux_spec n n le_rfl

theorem natDigitsAux_lt (fuel n : Nat) : ∀ d ∈ natDigitsAux fuel n, d < 10 := by
  induction fuel generalizing n with
  | zero => simp [natDigitsAux]
  | succ fuel ih =>
    match n with
    | 0 => simp [natDigitsAux]
    | m + 1 =>
      intro d hd
      simp only [natDigitsAux, List.mem_cons] at hd
      rcases hd with h | h
      · omega
      · exact ih _ d h

theorem toDigNat_digChar {d : Nat} (h : d < 10) : toDigNat (digChar d) = d := by
  interval_cases d <;> rfl

theorem isDigitCh_digChar {d : Nat} (h : d < 10) : isDigitCh (digChar d) = true := by
  interval_cases d <;> rfl

theorem natStrL_all_digits (n : Nat) : ∀ c ∈ natStrL n, isDigitCh c = true := by
  unfold natStrL
  split
  · simp [isDigitCh]
  · intro c hc
    simp only [List.mem_reverse, List.mem_map] at hc
    obtain ⟨d, hd, rfl⟩ := hc
    exact isDigitCh_digChar (natDigitsAux_lt n n d hd)

theorem natDigits_ne_nil {n : Nat} (hn : n ≠ 0) : natDigits n ≠ [] := by
  cases n with
  | zero => exact absurd rfl hn
  | succ m => simp [natDigits, natDigitsAux]

theorem natStrL_ne_nil (n : Nat) : natStrL n ≠ [] := by
  unfold natStrL
  split
  · simp
  · intro h
    rename_i hn
    simp only [List.reverse_eq_nil_iff, List.map_eq_nil_iff] at h
    exact natDigits_ne_nil hn h

theorem digitsVal_natStrL (n : Nat) : digitsVal (natStrL n) = n := by
  unfold natStrL digitsVal
  split
  · rename_i h
    subst h
    rfl
  · rw [List.map_reverse, List.reverse_reverse, List.map_map]
    have h : (natDigits n).map (toDigNat ∘ digChar) = natDigits n := by
      conv_rhs => rw [← List.map_id (natDigits n)]
      apply List.map_congr_left
      intro d hd
      simp [toDigNat_digChar (natDigitsAux_lt n n d hd)]
    rw [h, natDigits_spec]

theorem parseDigits_natStrL (n : Nat) : parseDigits (natStrL n) = some n := by
  unfold parseDigits
  rw [if_pos ⟨natStrL_ne_nil n, List.all_eq_true.mpr (natStrL_all_digits n)⟩,
    digitsVal_natStrL]

theorem natStrL_head_digit (n : Nat) :
    ∃ c l, natStrL n = c :: l ∧ isDigitCh c = true := by
  match h : natStrL n with
  | [] => exact absurd h (natStrL_ne_nil n)
  | c :: l =>
    exact ⟨c, l, rfl, natStrL_all_digits n c (h ▸ List.mem_cons_self c l)⟩

theorem jsNumberL_intStrL (i : Int) : jsNumberL (intStrL i) = some i := by
  unfold intStrL
  split
  · rename_i h
    have hni : (-(↑(i.natAbs)) : Int) = i := by omega
    simp only [jsNumberL, parseDigits_natStrL, hni, if_true]
  · rename_i h
    obtain ⟨c, l, hcl, hdig⟩ := natStrL_head_digit i.toNat
    rw [hcl]
    have hc0 : ('0' : Char) ≤ c := by
      simp only [isDigitCh, Bool.and_eq_true, decide_eq_true_eq] at hdig
      exact hdig.1
    have hne1 : c ≠ '-' := by
      intro he
      subst he
      revert hc0
      decide
    have hne2 : c ≠ '+' := by
      intro he
      subst he
      revert hc0
      decide
    have hp : parseDigits (c :: l) = some i.toNat := hcl ▸ parseDigits_natStrL i.toNat
    simp only [jsNumberL, if_neg hne1, if_neg hne2, hp]
    congr 1
    omega

/- ## Round-trip lemmas for the identity encoding -/

theorem hexVal_hexChar {m : Nat} (h : m < 16) : hexVal (hexChar m) = some m := by
  interval_cases m <;> decide

theorem parseStrBody_escape (s : List Char) (r : List Char) :
    parseStrBody (escapeJsonStr s ++ '"' :: r) = some (s, r) := by
  induction s with
  | nil =>
    show parseStrBody ('"' :: r) = _
    rw [parseStrBody.eq_def]
    simp
  | cons c t ih =>
    show parseStrBody ((escapeJsonChar c ++ escapeJsonStr t) ++ '"' :: r) = _
    unfold escapeJsonChar
    split
    · rename_i h
      subst h
      show parseStrBody ('\\' :: '"' :: (escapeJsonStr t ++ '"' :: r)) = _
      rw [parseStrBody.eq_def]
      simp [ih]
    · split
      · rename_i h
        subst h
        show parseStrBody ('\\' :: '\\' :: (escapeJsonStr t ++ '"' :: r)) = _
        rw [parseStrBody.eq_def]
        simp [ih]
      · split
        · rename_i h
          subst h
          show parseStrBody ('\\' :: 'b' :: (escapeJsonStr t ++ '"' :: r)) = _
          rw [parseStrBody.eq_def]
          simp [ih]
        · split
          · rename_i h
            subst h
            show parseStrBody ('\\' :: 't' :: (escapeJsonStr t ++ '"' :: r)) = _
            rw [parseStrBody.eq_def]
            simp [ih]
          · split
            · rename_i h
              subst h
              show parseStrBody ('\\' :: 'n' :: (escapeJsonStr t ++ '"' :: r)) = _
              rw [parseStrBody.eq_def]
              simp [ih]
            · split
              · rename_i h
                subst h
                show parseStrBody ('\\' :: 'f' :: (escapeJsonStr t ++ '"' :: r)) = _
                rw [parseStrBody.eq_def]
                simp [ih]
              · split
                · rename_i h
                  subst h
                  show parseStrBody ('\\' :: 'r' :: (escapeJsonStr t ++ '"' :: r)) = _
                  rw [parseStrBody.eq_def]
                  simp [ih]
                · split
                  · rename_i h1 h2 h3 h4 h5 h6 h7 hlt
                    have h16a : c.toNat / 16 < 16 := by omega
                    have h16b : c.toNat % 16 < 16 := by omega
                    show parseStrBody ('\\' :: 'u' :: '0' :: '0' ::
                      hexChar (c.toNat / 16) :: hexChar (c.toNat % 16) ::
                      (escapeJsonStr t ++ '"' :: r)) = _
                    rw [parseStrBody.eq_def]
                    have hv : ((0 * 16 + 0) * 16 + c.toNat / 16) * 16 + c.toNat % 16
                        = c.toNat := by omega
                    have hv2 : c.toNat / 16 * 16 + c.toNat % 16 = c.toNat := by omega
                    have h0 : hexVal '0' = some 0 := rfl
                    simp [h0, hexVal_hexChar h16a, hexVal_hexChar h16b, ih, hv, hv2,
                      Char.ofNat_toNat]
                  · rename_i h1 h2 h3 h4 h5 h6 h7 hge
                    show parseStrBody (c :: (escapeJsonStr t ++ '"' :: r)) = _
                    rw [parseStrBody.eq_def]
                    simp only [if_neg h1, if_neg h2, if_neg hge, ih, Option.map_some']

theorem mem_escapeJsonStr {e : Char} {l : List Char} (h : e ∈ escapeJsonStr l) :
    ∃ a ∈ l, e ∈ escapeJsonChar a := by
  induction l with
  | nil => simp [escapeJsonStr] at h
  | cons a t ih =>
    simp only [escapeJsonStr, List.mem_append] at h
    rcases h with h | h
    · exact ⟨a, List.mem_cons_self a t, h⟩
    · obtain ⟨b, hb, he⟩ := ih h
      exact ⟨b, List.mem_cons_of_mem a hb, he⟩

theorem escapeJsonChar_ne_delim (c : Char) : ∀ e ∈ escapeJsonChar c, e ≠ delimCh := by
  unfold escapeJsonChar
  split
  · simp [delimCh]
  · split
    · simp [delimCh]
    · split
      · simp [delimCh]
      · split
        · simp [delimCh]
        · split
          · simp [delimCh]
          · split
            · simp [delimCh]
            · split
              · simp [delimCh]
              · split
                · intro e he
                  simp only [List.mem_cons, List.not_mem_nil, or_false] at he
                  have hhex : ∀ m : Nat, hexChar m ≠ delimCh := by
                    intro m
                    unfold hexChar
                    split <;> decide
                  rcases he with rfl | rfl | rfl | rfl | rfl | rfl
                  · decide
                  · decide
                  · decide
                  · decide
                  · exact hhex _
                  · exact hhex _
                · rename_i h1 h2 h3 h4 h5 h6 h7 hge
                  intro e he
                  simp only [List.mem_cons, List.not_mem_nil, or_false] at he
                  subst he
                  intro hd
                  subst hd
                  exact hge (by decide)

theorem jsonStringifyL_ne_delim (v : Value) : ∀ c ∈ jsonStringifyL v, c ≠ delimCh := by
  match v with
  | .vnull => decide
  | .vbool true => decide
  | .vbool false => decide
  | .vnum n =>
    intro c hc
    show c ≠ delimCh
    have hd : isDigitCh c = true ∨ c = '-' := by
      simp only [jsonStringifyL, intStrL] at hc
      split at hc
      · rcases List.mem_cons.mp hc with rfl | h
        · exact Or.inr rfl
        · exact Or.inl (natStrL_all_digits _ c h)
      · exact Or.inl (natStrL_all_digits _ c hc)
    rcases hd with h | rfl
    · intro he
      subst he
      exact absurd h (by decide)
    · decide
  | .vstr s =>
    intro c hc
    simp only [jsonStringifyL, List.mem_cons, List.mem_append,
      List.mem_singleton] at hc
    rcases hc with rfl | hc | rfl | hc
    · decide
    · obtain ⟨a, _, ha⟩ := mem_escapeJsonStr hc
      exact escapeJsonChar_ne_delim a c ha
    · decide
    · simp at hc

/-- A `-`-prefixed digit run, or a bare digit run, is never one of the JSON
keywords (whose head is a letter). -/
theorem digit_run_ne_keyword {w : List Char} (hw : w ≠ [])
    (hdig : ∀ c ∈ w, isDigitCh c = true) {kw : List Char} (hkh : kw.head! ≠ '-')
    (hkd : ¬ isDigitCh kw.head! = true) : ('-' :: w ≠ kw ∧ w ≠ kw) := by
  constructor
  · intro he
    apply hkh
    rw [← he]
    rfl
  · intro he
    apply hkd
    rw [← he]
    match w, hw with
    | c :: t, _ => exact hdig c (List.mem_cons_self c t)

theorem parseJsonScalar_stringify (v : Value) :
    parseJsonScalar (jsonStringifyL v) = some v := by
  match v with
  | .vnull => rfl
  | .vbool true => rfl
  | .vbool false => rfl
  | .vstr s =>
    show parseJsonScalar ('"' :: (escapeJsonStr s.data ++ ['"'])) = _
    have hbody : parseStrBody (escapeJsonStr s.data ++ '"' :: []) = some (s.data, []) :=
      parseStrBody_escape s.data []
    have hnull : ¬ ('"' :: (escapeJsonStr s.data ++ ['"'])) = "null".data := by
      intro he
      injection he with h1 _
      exact absurd h1 (by decide)
    have htrue : ¬ ('"' :: (escapeJsonStr s.data ++ ['"'])) = "true".data := by
      intro he
      injection he with h1 _
      exact absurd h1 (by decide)
    have hfalse : ¬ ('"' :: (escapeJsonStr s.data ++ ['"'])) = "false".data := by
      intro he
      injection he with h1 _
      exact absurd h1 (by decide)
    unfold parseJsonScalar
    rw [if_neg hnull, if_neg htrue, if_neg hfalse]
    show parseJsonScalarCore '"' (escapeJsonStr s.data ++ ['"']) = _
    unfold parseJsonScalarCore
    rw [if_pos rfl, hbody]
  | .vnum n =>
    show parseJsonScalar (intStrL n) = _
    unfold intStrL
    split
    · rename_i h
      have hall := natStrL_all_digits n.natAbs
      have hnn := natStrL_ne_nil n.natAbs
      unfold parseJsonScalar
      rw [if_neg ((digit_run_ne_keyword hnn hall (by decide) (by decide)).1),
        if_neg ((digit_run_ne_keyword hnn hall (by decide) (by decide)).1),
        if_neg ((digit_run_ne_keyword hnn hall (by decide) (by decide)).1)]
      show parseJsonScalarCore '-' (natStrL n.natAbs) = _
      unfold parseJsonScalarCore
      rw [if_neg (by decide), if_pos rfl, parseDigits_natStrL]
      have hni : (-(↑(n.natAbs)) : Int) = n := by omega
      show some (Value.vnum (-(↑(n.natAbs)))) = some (Value.vnum n)
      rw [hni]
    · rename_i h
      obtain ⟨c, l, hcl, hdig⟩ := natStrL_head_digit n.toNat
      have hall := natStrL_all_digits n.toNat
      have hnn := natStrL_ne_nil n.toNat
      unfold parseJsonScalar
      rw [if_neg ((digit_run_ne_keyword hnn hall (by decide) (by decide)).2),
        if_neg ((digit_run_ne_keyword hnn hall (by decide) (by decide)).2),
        if_neg ((digit_run_ne_keyword hnn hall (by decide) (by decide)).2)]
      rw [hcl]
      have hq : ¬ c = '"' := by
        intro he
        subst he
        exact absurd hdig (by decide)
      have hm : ¬ c = '-' := by
        intro he
        subst he
        exact absurd hdig (by decide)
      have hp : parseDigits (c :: l) = some n.toNat := hcl ▸ parseDigits_natStrL n.toNat
      have hni : ((n.toNat : Nat) : Int) = n := by omega
      show parseJsonScalarCore c l = _
      unfold parseJsonScalarCore
      rw [if_neg hq, if_neg hm, hp]
      show some (Value.vnum ((n.toNat : Nat) : Int)) = some (Value.vnum n)
      rw [hni]

theorem splitOnD_ne_nil (d : Char) (l : List Char) : splitOnD d l ≠ [] := by
  match l with
  | [] => simp [splitOnD]
  | c :: t =>
    unfold splitOnD
    split
    · simp
    · split <;> simp

theorem splitOnD_append (d : Char) (p l : List Char) (hp : ∀ c ∈ p, c ≠ d) :
    ∃ h t, splitOnD d l = h :: t ∧ splitOnD d (p ++ l) = (p ++ h) :: t := by
  induction p with
  | nil =>
    match hs : splitOnD d l with
    | [] => exact absurd hs (splitOnD_ne_nil d l)
    | h :: t => exact ⟨h, t, rfl, by simp [hs]⟩
  | cons c p' ih =>
    obtain ⟨h, t, hs, hps⟩ := ih (fun e he => hp e (List.mem_cons_of_mem c he))
    refine ⟨h, t, hs, ?_⟩
    have hcd : ¬ c = d := hp c (List.mem_cons_self c p')
    show splitOnD d (c :: (p' ++ l)) = _
    unfold splitOnD
    rw [if_neg hcd, hps]
    rfl

theorem splitOnD_joinD (d : Char) (parts : List (List Char)) (hne : parts ≠ [])
    (hp : ∀ part ∈ parts, ∀ c ∈ part, c ≠ d) :
    splitOnD d (joinD d parts) = parts := by
  induction parts with
  | nil => exact absurd rfl hne
  | cons p ps ih =>
    match ps, ih with
    | [], _ =>
      show splitOnD d p = [p]
      obtain ⟨h, t, hs, hps⟩ :=
        splitOnD_append d p [] (hp p (List.mem_cons_self p []))
      simp only [splitOnD] at hs
      cases hs
      simpa using hps
    | q :: qs, ih =>
      show splitOnD d (p ++ d :: joinD d (q :: qs)) = p :: q :: qs
      have hrest : splitOnD d (d :: joinD d (q :: qs)) = [] :: (q :: qs) := by
        show splitOnD d (d :: joinD d (q :: qs)) = _
        unfold splitOnD
        rw [if_pos rfl,
          ih (by simp) (fun part hpart => hp part (List.mem_cons_of_mem p hpart))]
      obtain ⟨h, t, hs, hps⟩ :=
        splitOnD_append d p (d :: joinD d (q :: qs)) (hp p (List.mem_cons_self p _))
      rw [hrest] at hs
      cases hs
      simpa using hps

/-- Identity encoding and the delete path's decoding are mutually inverse on
non-empty primary-key value tuples. -/
theorem decodeRowId_encodeRowId (pkVals : List Value) (hne : pkVals ≠ []) :
    decodeRowId (encodeRowId pkVals) = pkVals := by
  unfold decodeRowId encodeRowId
  have hdata : (String.mk (joinD delimCh (pkVals.map jsonStringifyL))).data
      = joinD delimCh (pkVals.map jsonStringifyL) := rfl
  rw [hdata, splitOnD_joinD delimCh (pkVals.map jsonStringifyL)
    (by simpa using hne)
    (by
      intro part hpart c hc
      obtain ⟨v, _, rfl⟩ := List.mem_map.mp hpart
      exact jsonStringifyL_ne_delim v c hc)]
  rw [List.map_map]
  conv_rhs => rw [← List.map_id pkVals]
  apply List.map_congr_left
  intro v _
  simp [parseJsonScalar_stringify v]

/-- The identity encoding is injective on non-empty primary-key tuples. -/
theorem encodeRowId_inj {vs ws : List Value} (hv : vs ≠ []) (hw : ws ≠ [])
    (h : encodeRowId vs = encodeRowId ws) : vs = ws := by
  have := congrArg decodeRowId h
  rwa [decodeRowId_encodeRowId vs hv, decodeRowId_encodeRowId ws hw] at this

/- ## The where-clause builder agrees with the spec's per-entry description -/

theorem whereStep_eq (parts : List String) (cv : String × String) :
    whereStep parts cv = parts ++ (whereConjunctSpec cv).toList := by
  unfold whereStep whereConjunctSpec
  by_cases h1 : jsTrim cv.2 = ""
  · simp [h1]
  · by_cases h2 : jsToLower (jsTrim cv.2) = "null"
    · simp [h1, h2]
    · by_cases h3 : jsToLower (jsTrim cv.2) = "not null"
      · simp [h1, h2, h3]
      · simp [h1, h2, h3]

theorem buildWhereParts_eq (filters : List (String × String)) :
    buildWhereParts filters = filters.filterMap whereConjunctSpec := by
  suffices h : ∀ acc, filters.foldl whereStep acc
      = acc ++ filters.filterMap whereConjunctSpec by
    simpa using h []
  induction filters with
  | nil => simp
  | cons cv t ih =>
    intro acc
    simp only [List.foldl_cons, List.filterMap_cons]
    rw [ih (whereStep acc cv), whereStep_eq]
    cases h : whereConjunctSpec cv <;> simp [h]

theorem buildWhereClause_eq (filters : List (String × String)) :
    buildWhereClause filters = whereClauseSpec filters := by
  unfold buildWhereClause whereClauseSpec
  rw [buildWhereParts_eq]
  rcases h : filters.filterMap whereConjunctSpec with _ | ⟨p, ps⟩ <;> simp [h]

/- ## Claim theorems -/

/-- C3: for schema `public`, table `orders`, filter `{status: "active"}`,
sort `id desc`, limit 100 and offset 0, the compiled page select is exactly
`SELECT * FROM "public"."orders" WHERE "status"::text ILIKE '%active%' ORDER
BY "id" DESC LIMIT 100 OFFSET 0`; and in general the WHERE clause has one
conjunct per non-blank filter entry joined by AND, with case-insensitive
`null` / `not null` tokens rendered as IS NULL / IS NOT NULL and every other
non-empty value rendered as a case-insensitive text-contains match. -/
theorem c3_page_select_compilation :
    buildSelectSql "public" "orders" [("status", "active")]
        { column := "id", direction := some SortDir.desc } 100 0 =
      "SELECT * FROM \"public\".\"orders\" WHERE \"status\"::text ILIKE '%active%' ORDER BY \"id\" DESC LIMIT 100 OFFSET 0"
    ∧ ∀ filters, buildWhereClause filters = whereClauseSpec filters :=
  ⟨by decide, buildWhereClause_eq⟩

/-- C1: when two refetches overlap under generations G1 < G2, then whatever
the completion order, the committed rows/count are those of the G2 fetch
only, and the G1 completion commits nothing once G2 has been issued. -/
theorem c1_stale_fetch_discarded :
    ∀ (st : SessState) (rows1 : List (List Value)) (cnt1 : Option Int)
      (rows2 : List (List Value)) (n2 : Int),
    (refetchComplete (issueRefetch (issueRefetch st).1).1
        (issueRefetch st).2 (Except.ok ⟨rows1, cnt1⟩)
      = (issueRefetch (issueRefetch st).1).1)
    ∧ ((refetchComplete (refetchComplete (issueRefetch (issueRefetch st).1).1
          (issueRefetch st).2 (Except.ok ⟨rows1, cnt1⟩))
          (issueRefetch (issueRefetch st).1).2 (Except.ok ⟨rows2, some n2⟩)).rows
        = rows2
      ∧ (refetchComplete (refetchComplete (issueRefetch (issueRefetch st).1).1
          (issueRefetch st).2 (Except.ok ⟨rows1, cnt1⟩))
          (issueRefetch (issueRefetch st).1).2 (Except.ok ⟨rows2, some n2⟩)).totalCount
        = some n2)
    ∧ ((refetchComplete (refetchComplete (issueRefetch (issueRefetch st).1).1
          (issueRefetch (issueRefetch st).1).2 (Except.ok ⟨rows2, some n2⟩))
          (issueRefetch st).2 (Except.ok ⟨rows1, cnt1⟩)).rows
        = rows2
      ∧ (refetchComplete (refetchComplete (issueRefetch (issueRefetch st).1).1
          (issueRefetch (issueRefetch st).1).2 (Except.ok ⟨rows2, some n2⟩))
          (issueRefetch st).2 (Except.ok ⟨rows1, cnt1⟩)).totalCount
        = some n2) := by
  intro st rows1 cnt1 rows2 n2
  have hne : ¬ st.generation + 1 = st.generation + 1 + 1 := by omega
  refine ⟨?_, ⟨?_, ?_⟩, ⟨?_, ?_⟩⟩ <;>
    simp [issueRefetch, refetchComplete, hne]

/-- C7: a failed fetch (filter/sort refetch or load-more) surfaces the error
and leaves the cached rows and totalCount exactly as they were — no partial
overwrite. -/
theorem c7_fetch_failure_preserves_cache :
    ∀ (st : SessState) (tag : Nat) (e : String),
      (refetchComplete st tag (Except.error e)).rows = st.rows
      ∧ (refetchComplete st tag (Except.error e)).totalCount = st.totalCount
      ∧ (tag = st.generation → (refetchComplete st tag (Except.error e)).error = some e)
      ∧ (loadMoreComplete st (Except.error e)).rows = st.rows
      ∧ (loadMoreComplete st (Except.error e)).totalCount = st.totalCount
      ∧ (loadMoreComplete st (Except.error e)).error = some e := by
  intro st tag e
  unfold refetchComplete loadMoreComplete
  by_cases h : tag = st.generation <;> simp [h]

/-- C7 witness: a concrete failing refetch and load-more leave a concrete
cache untouched. -/
theorem c7_fetch_failure_preserves_cache_witness :
    (refetchComplete ⟨3, [[Value.vnum 1]], some 40, none, []⟩ 3
        (Except.error "boom")).rows = [[Value.vnum 1]]
    ∧ (refetchComplete ⟨3, [[Value.vnum 1]], some 40, none, []⟩ 3
        (Except.error "boom")).error = some "boom" :=
  ⟨(c7_fetch_failure_preserves_cache ⟨3, [[Value.vnum 1]], some 40, none, []⟩ 3
      "boom").1,
    (c7_fetch_failure_preserves_cache ⟨3, [[Value.vnum 1]], some 40, none, []⟩ 3
      "boom").2.2.1 rfl⟩

/-- C10: for scalar primary-key tuples under a non-empty primary-key column
list, the delete path's decoding (split on the `\x01` delimiter, JSON-parse
each part) recovers exactly the encoded primary-key values in order. -/
theorem c10_identity_decode_inverts_encode (pkVals : List Value)
    (h : pkVals ≠ []) : decodeRowId (encodeRowId pkVals) = pkVals :=
  decodeRowId_encodeRowId pkVals h

/-- C10 witness at a concrete two-column key. -/
theorem c10_identity_decode_inverts_encode_witness :
    ([Value.vnum 5, Value.vstr "a b"] : List Value) ≠ []
    ∧ decodeRowId (encodeRowId [Value.vnum 5, Value.vstr "a b"])
      = [Value.vnum 5, Value.vstr "a b"] :=
  ⟨by decide, c10_identity_decode_inverts_encode _ (by decide)⟩

/-- C2: with a non-empty primary-key column list, the row identity is a pure
function of the primary-key cells: two rows get the same identity string
exactly when their primary-key values agree, however their other columns
differ. -/
theorem c2_row_identity_injective (pkCols : List String)
    (r1 r2 : List (String × Value)) (h : pkCols ≠ []) :
    getRowId pkCols r1 = getRowId pkCols r2 ↔
      pkCols.map (lookupOrNull r1) = pkCols.map (lookupOrNull r2) := by
  unfold getRowId
  rw [if_neg h, if_neg h]
  constructor
  · intro he
    refine encodeRowId_inj ?_ ?_ he <;>
      simpa using h
  · intro he
    rw [he]

/-- C2 witness: equal single-column keys give equal identity strings even
when another column differs. -/
theorem c2_row_identity_injective_witness :
    getRowId ["id"] [("id", Value.vnum 5), ("name", Value.vstr "Alice")]
      = getRowId ["id"] [("id", Value.vnum 5), ("name", Value.vstr "Bob")] :=
  (c2_row_identity_injective ["id"]
      [("id", Value.vnum 5), ("name", Value.vstr "Alice")]
      [("id", Value.vnum 5), ("name", Value.vstr "Bob")]
      (by decide)).mpr (by decide)

/- ## Coercion lemmas (C8) -/

theorem dropWhile_all_false {p : Char → Bool} {l : List Char}
    (h : ∀ c ∈ l, p c = false) : l.dropWhile p = l := by
  cases l with
  | nil => rfl
  | cons c t =>
    rw [List.dropWhile_cons, h c (List.mem_cons_self c t)]
    simp

theorem trimL_eq_self {l : List Char} (h : ∀ c ∈ l, isWsChar c = false) :
    trimL l = l := by
  unfold trimL
  rw [dropWhile_all_false h,
    dropWhile_all_false (fun c hc => h c (List.mem_reverse.mp hc)),
    List.reverse_reverse]

theorem isDigitCh_not_ws {c : Char} (h : isDigitCh c = true) :
    isWsChar c = false := by
  cases hw : isWsChar c
  · rfl
  · exfalso
    have hw2 : c = ' ' ∨ c = '\t' ∨ c = '\n' ∨ c = '\x0d' ∨ c = '\x0b' ∨ c = '\x0c' := by
      simpa [isWsChar, or_assoc] using hw
    rcases hw2 with rfl | rfl | rfl | rfl | rfl | rfl <;> exact absurd h (by decide)

theorem toLowerCh_digit {c : Char} (h : isDigitCh c = true) : toLowerCh c = c := by
  unfold toLowerCh
  rw [if_neg]
  rintro ⟨h1, _⟩
  have h9 : c ≤ '9' := by
    simp only [isDigitCh, Bool.and_eq_true, decide_eq_true_eq] at h
    exact h.2
  exact absurd (le_trans h1 h9) (by decide)

theorem intStrL_chars (i : Int) :
    ∀ c ∈ intStrL i, isDigitCh c = true ∨ c = '-' := by
  unfold intStrL
  split
  · intro c hc
    rcases List.mem_cons.mp hc with rfl | h
    · exact Or.inr rfl
    · exact Or.inl (natStrL_all_digits _ c h)
  · intro c hc
    exact Or.inl (natStrL_all_digits _ c hc)

theorem intStrL_ne_nil (i : Int) : intStrL i ≠ [] := by
  unfold intStrL
  split
  · simp
  · exact natStrL_ne_nil _

theorem intStrL_ne_keyword (i : Int) (kw : List Char) (hkh : kw.head! ≠ '-')
    (hkd : ¬ isDigitCh kw.head! = true) : intStrL i ≠ kw := by
  unfold intStrL
  split
  · exact (digit_run_ne_keyword (natStrL_ne_nil _) (natStrL_all_digits _) hkh hkd).1
  · exact (digit_run_ne_keyword (natStrL_ne_nil _) (natStrL_all_digits _) hkh hkd).2

theorem trimL_intStrL (i : Int) : trimL (intStrL i) = intStrL i := by
  apply trimL_eq_self
  intro c hc
  rcases intStrL_chars i c hc with h | rfl
  · exact isDigitCh_not_ws h
  · decide

theorem map_toLowerCh_intStrL (i : Int) :
    (intStrL i).map toLowerCh = intStrL i := by
  conv_rhs => rw [← List.map_id (intStrL i)]
  apply List.map_congr_left
  intro c hc
  rcases intStrL_chars i c hc with h | rfl
  · simp [toLowerCh_digit h]
  · decide

theorem parseCellValue_numStr (n : Int) :
    parseCellValue (String.mk (intStrL n)) = Value.vnum n := by
  have htrim : jsTrim (String.mk (intStrL n)) = String.mk (intStrL n) := by
    show String.mk (trimL (intStrL n)) = _
    rw [trimL_intStrL]
  have hlower : jsToLower (String.mk (intStrL n)) = String.mk (intStrL n) := by
    show String.mk ((intStrL n).map toLowerCh) = _
    rw [map_toLowerCh_intStrL]
  have hnull : String.mk (intStrL n) ≠ "null" := by
    intro he
    exact intStrL_ne_keyword n "null".data (by decide) (by decide)
      (congrArg String.data he)
  have htrue : String.mk (intStrL n) ≠ "true" := by
    intro he
    exact intStrL_ne_keyword n "true".data (by decide) (by decide)
      (congrArg String.data he)
  have hfalse : String.mk (intStrL n) ≠ "false" := by
    intro he
    exact intStrL_ne_keyword n "false".data (by decide) (by decide)
      (congrArg String.data he)
  have hempty : String.mk (intStrL n) ≠ "" := by
    intro he
    exact intStrL_ne_nil n (congrArg String.data he)
  unfold parseCellValue
  simp only [htrim, hlower]
  rw [if_neg (by rintro (he | he) <;> exact absurd he (by assumption)),
    if_neg htrue, if_neg hfalse]
  have hnum : jsNumberL (String.mk (intStrL n)).data = some n := jsNumberL_intStrL n
  rw [hnum]
  show (if (String.mk (intStrL n) : String) = "" then Value.vstr (String.mk (intStrL n))
    else Value.vnum n) = Value.vnum n
  rw [if_neg hempty]

/- ## Claim theorem C8 -/

/-- C8: for every value of type null, boolean or number, coercion is
idempotent through its textual representation:
`coerce(String(coerce(String(x)))) = coerce(String(x))` (the cell coercion
applied to the value's rendering is a fixed point). -/
theorem c8_coercion_idempotent :
    (parseCellValue (jsStringOfValue (parseCellValue (jsStringOfValue Value.vnull)))
      = parseCellValue (jsStringOfValue Value.vnull))
    ∧ (∀ b, parseCellValue
        (jsStringOfValue (parseCellValue (jsStringOfValue (Value.vbool b))))
      = parseCellValue (jsStringOfValue (Value.vbool b)))
    ∧ (∀ n : Int, parseCellValue
        (jsStringOfValue (parseCellValue (jsStringOfValue (Value.vnum n))))
      = parseCellValue (jsStringOfValue (Value.vnum n))) := by
  refine ⟨by decide, fun b => by cases b <;> decide, fun n => ?_⟩
  show parseCellValue (jsStringOfValue (parseCellValue (String.mk (intStrL n)))) = _
  rw [parseCellValue_numStr n]

/- ## Claim theorem C6: cell update is a frame-preserving point mutation -/

/-- C6: a successful cell update on a cached row changes only the targeted
cell of the targeted row: the number of rows, every other row, every other
cell of the targeted row and `totalCount` are all unchanged (rows are
positionally aligned with the column list, §3 of the spec). -/
theorem c6_cell_update_frame (cols : List String) (st : PageState)
    (rowIndex : Nat) (columnName : String) (newValue : Value) (ci : Nat)
    (hci : jsIndexOf columnName cols = some ci)
    (hrow : rowIndex < st.rows.length) :
    (handleCellSave cols st rowIndex columnName newValue).rows.length
        = st.rows.length
    ∧ (handleCellSave cols st rowIndex columnName newValue).totalCount
        = st.totalCount
    ∧ (∀ i, i ≠ rowIndex →
        (handleCellSave cols st rowIndex columnName newValue).rows[i]?
          = st.rows[i]?)
    ∧ (∀ k, k ≠ ci →
        (((handleCellSave cols st rowIndex columnName newValue).rows[rowIndex]?).getD [])[k]?
          = ((st.rows[rowIndex]?).getD [])[k]?)
    ∧ (ci < ((st.rows[rowIndex]?).getD []).length →
        (((handleCellSave cols st rowIndex columnName newValue).rows[rowIndex]?).getD [])[ci]?
          = some newValue) := by
  have hget : st.rows[rowIndex]? = some st.rows[rowIndex] :=
    List.getElem?_eq_getElem hrow
  have hsave : handleCellSave cols st rowIndex columnName newValue
      = { st with rows := st.rows.set rowIndex (st.rows[rowIndex].set ci newValue) } := by
    unfold handleCellSave
    rw [hget, hci]
  rw [hsave]
  refine ⟨by simp, rfl, ?_, ?_, ?_⟩
  · intro i hi
    exact List.getElem?_set_ne (fun he => hi he.symm)
  · intro k hk
    rw [List.getElem?_set_self hrow, hget]
    simp only [Option.getD_some]
    exact List.getElem?_set_ne (fun he => hk he.symm)
  · intro hcilt
    rw [List.getElem?_set_self hrow]
    simp only [Option.getD_some]
    rw [hget] at hcilt
    simp only [Option.getD_some] at hcilt
    exact List.getElem?_set_self hcilt

/-- C6 witness: updating the `name` cell of the first of two cached rows
changes only that cell and leaves the length, the other row and the count
unchanged. -/
theorem c6_cell_update_frame_witness :
    jsIndexOf "name" ["id", "name"] = some 1
    ∧ (0 : Nat) < ([[Value.vnum 5, Value.vstr "Alice"],
        [Value.vnum 6, Value.vstr "Carol"]] : List (List Value)).length
    ∧ (handleCellSave ["id", "name"]
        ⟨[[Value.vnum 5, Value.vstr "Alice"], [Value.vnum 6, Value.vstr "Carol"]],
          some 40⟩ 0 "name" (Value.vstr "Bob")).rows.length = 2
    ∧ (handleCellSave ["id", "name"]
        ⟨[[Value.vnum 5, Value.vstr "Alice"], [Value.vnum 6, Value.vstr "Carol"]],
          some 40⟩ 0 "name" (Value.vstr "Bob")).totalCount = some 40 := by
  have h := c6_cell_update_frame ["id", "name"]
    ⟨[[Value.vnum 5, Value.vstr "Alice"], [Value.vnum 6, Value.vstr "Carol"]],
      some 40⟩ 0 "name" (Value.vstr "Bob") 1 (by decide) (by decide)
  exact ⟨by decide, by decide, h.1, h.2.1⟩

/- ## Quote-escaping lemmas (C4) -/

theorem quotesPaired_escapeSqL_append (l r : List Char) :
    quotesPaired '\'' (escapeSqL l ++ r) = quotesPaired '\'' r := by
  induction l with
  | nil => rfl
  | cons c t ih =>
    unfold escapeSqL
    split
    · rename_i h
      show quotesPaired '\'' ('\'' :: '\'' :: (escapeSqL t ++ r)) = _
      rw [quotesPaired.eq_def]
      simp [ih]
    · rename_i h
      show quotesPaired '\'' (c :: (escapeSqL t ++ r)) = _
      rw [quotesPaired.eq_def]
      simp only [if_neg h]
      exact ih

theorem quotesPaired_of_not_mem {q : Char} {l : List Char} (h : q ∉ l) :
    quotesPaired q l = true := by
  induction l with
  | nil => rfl
  | cons c t ih =>
    have hc : ¬ c = q := fun he => h (he ▸ List.mem_cons_self c t)
    have ht := ih (fun hm => h (List.mem_cons_of_mem c hm))
    rw [quotesPaired.eq_def]
    simp [hc, ht]

theorem identBody_quoteIdent (name : String) :
    identBody (quoteIdent name) = name := by
  unfold identBody quoteIdent
  have hdata : ("\"" ++ name ++ "\"").data = '"' :: (name.data ++ ['"']) := by
    simp
  rw [hdata]
  show String.mk (name.data ++ ['"']).dropLast = name
  rw [List.dropLast_concat]

/- ## Claim theorems C4 -/

/-- C4 counterexample: identifier names are interpolated verbatim, so a table
name containing a double quote yields a quoted identifier whose body holds an
unescaped double quote, embedded as-is in the compiled select.  (The name
`or"d` stands between the identifier quotes unchanged, and its lone `"` is
not doubled.) -/
theorem c4_unescaped_identifier_counterexample :
    identBody (quoteIdent (String.mk ['o', 'r', '"', 'd']))
      = String.mk ['o', 'r', '"', 'd']
    ∧ quotesPaired '"' (identBody (quoteIdent (String.mk ['o', 'r', '"', 'd']))).data
      = false
    ∧ buildSelectSql "public" (String.mk ['o', 'r', '"', 'd']) []
        { column := "", direction := none } 100 0
      = "SELECT * FROM \"public\".\"or\"d\" LIMIT 100 OFFSET 0" := by
  refine ⟨identBody_quoteIdent _, by decide, by decide⟩

/-- C4 (amended): every embedded single quote in a filter value is doubled,
so a rendered filter literal never contains an unescaped single quote; but
identifier names are interpolated verbatim without escaping, so the
no-unescaped-double-quote guarantee holds exactly for names containing no
double-quote character. -/
theorem c4_quote_escaping_amended :
    (∀ v : String, quotesPaired '\'' (filterLiteralBody v) = true)
    ∧ (∀ name : String, '"' ∉ name.data →
        identBody (quoteIdent name) = name
        ∧ quotesPaired '"' (identBody (quoteIdent name)).data = true) := by
  constructor
  · intro v
    show quotesPaired '\'' ('%' :: (escapeSqL (jsTrim v).data ++ ['%'])) = true
    have h2 := quotesPaired_escapeSqL_append (jsTrim v).data ['%']
    have h3 : quotesPaired '\'' ['%'] = true := by decide
    rw [quotesPaired.eq_def]
    simp [h2, h3]
  · intro name h
    refine ⟨identBody_quoteIdent name, ?_⟩
    rw [identBody_quoteIdent name]
    exact quotesPaired_of_not_mem h

/-- C4 witness: a filter value with an embedded quote renders with it
doubled; a quote-free identifier renders with no unescaped double quote. -/
theorem c4_quote_escaping_amended_witness :
    quotesPaired '\'' (filterLiteralBody "O'Brien") = true
    ∧ '"' ∉ ("orders" : String).data
    ∧ (identBody (quoteIdent "orders") = "orders"
      ∧ quotesPaired '"' (identBody (quoteIdent "orders")).data = true) :=
  ⟨c4_quote_escaping_amended.1 "O'Brien", by decide,
    c4_quote_escaping_amended.2 "orders" (by decide)⟩

/- ## Debounce lemmas (C9) -/

/-- Every edit of a burst arrives within the 400-unit quiet window opened by
the previous one (times non-decreasing). -/
def burstOk (tprev : Nat) : List (Nat × String × String) → Bool
  | [] => true
  | e :: t => (decide (tprev ≤ e.1) && decide (e.1 < tprev + 400)) && burstOk e.1 t

theorem runEdits_burst (es : List (Nat × String × String)) :
    ∀ (tprev : Nat) (m : List (String × String))
      (f0 : List (List (String × String))),
    burstOk tprev es = true →
    runEdits ⟨tprev, m, some (tprev + 400), f0⟩ es
      = ⟨es.foldl (fun _ e => e.1) tprev,
         es.foldl (fun m e => updateAssoc m e.2.1 e.2.2) m,
         some (es.foldl (fun _ e => e.1) tprev + 400), f0⟩ := by
  induction es with
  | nil => intro tprev m f0 _; rfl
  | cons e t ih =>
    intro tprev m f0 hb
    simp only [burstOk, Bool.and_eq_true, decide_eq_true_eq] at hb
    obtain ⟨⟨hle, hlt⟩, hrest⟩ := hb
    show runEdits (handleFilterChange ⟨tprev, m, some (tprev + 400), f0⟩ e.1 e.2.1 e.2.2) t = _
    have hfc : handleFilterChange ⟨tprev, m, some (tprev + 400), f0⟩ e.1 e.2.1 e.2.2
        = ⟨e.1, updateAssoc m e.2.1 e.2.2, some (e.1 + 400), f0⟩ := by
      have hne2 : ¬ (tprev + 400 ≤ e.1) := by omega
      simp [handleFilterChange, fireIfDue, hne2]
    rw [hfc, ih e.1 (updateAssoc m e.2.1 e.2.2) f0 hrest]
    rfl

theorem lookup_updateAssoc (m : List (String × String)) (c v : String) :
    (updateAssoc m c v).lookup c = some v := by
  induction m with
  | nil =>
    show List.lookup c [(c, v)] = some v
    rw [List.lookup.eq_def]
    simp
  | cons kw t ih =>
    obtain ⟨k, w⟩ := kw
    show List.lookup c (if k = c then (k, v) :: t else (k, w) :: updateAssoc t c v)
      = some v
    split
    · rename_i h
      rw [List.lookup.eq_def]
      simp [h]
    · rename_i h
      rw [List.lookup.eq_def]
      have hbeq : (c == k) = false := by
        simp only [beq_eq_false_iff_ne, ne_eq]
        exact fun he => h he.symm
      simp [hbeq, ih]

theorem foldl_updateAssoc_getLast (es : List (Nat × String × String))
    (hne : es ≠ []) (m0 : List (String × String)) :
    (es.foldl (fun m e => updateAssoc m e.2.1 e.2.2) m0).lookup
        (es.getLast hne).2.1 = some ((es.getLast hne).2.2) := by
  induction es generalizing m0 with
  | nil => exact absurd rfl hne
  | cons e t ih =>
    cases t with
    | nil => exact lookup_updateAssoc m0 e.2.1 e.2.2
    | cons e2 t2 =>
      rw [List.foldl_cons, List.getLast_cons (by simp)]
      exact ih (by simp) _

/- ## Claim theorem C9 -/

/-- C9: a burst of filter edits in which each edit arrives within the
400-unit quiet window of the previous one issues exactly one fetch, after
the quiet period, compiled from the final filter map — in which the last
edited column holds the last typed value; no earlier scheduled execution
ever runs. -/
theorem c9_debounce_single_fetch (first : Nat × String × String)
    (rest : List (Nat × String × String)) (filters0 : List (String × String))
    (t0 : Nat) (hb : burstOk first.1 rest = true) :
    (settleDebounce (runEdits ⟨t0, filters0, none, []⟩ (first :: rest))).fired
      = [(first :: rest).foldl (fun m e => updateAssoc m e.2.1 e.2.2) filters0]
    ∧ ((first :: rest).foldl (fun m e => updateAssoc m e.2.1 e.2.2) filters0).lookup
        ((first :: rest).getLast (by simp)).2.1
      = some (((first :: rest).getLast (by simp)).2.2) := by
  constructor
  · have hfc : handleFilterChange ⟨t0, filters0, none, []⟩ first.1 first.2.1 first.2.2
        = ⟨first.1, updateAssoc filters0 first.2.1 first.2.2, some (first.1 + 400), []⟩ := by
      unfold handleFilterChange fireIfDue
      rfl
    show (settleDebounce (runEdits (handleFilterChange ⟨t0, filters0, none, []⟩
      first.1 first.2.1 first.2.2) rest)).fired = _
    rw [hfc, runEdits_burst rest first.1 _ [] hb]
    rfl
  · exact foldl_updateAssoc_getLast (first :: rest) (by simp) filters0

/-- C9 witness: three edits to the `status` column typed 100 time units
apart produce exactly one fetch, compiled from the last typed value. -/
theorem c9_debounce_single_fetch_witness :
    burstOk 0 [(100, "status", "ac"), (200, "status", "act")] = true
    ∧ (settleDebounce (runEdits ⟨0, [], none, []⟩
        [(0, "status", "a"), (100, "status", "ac"), (200, "status", "act")])).fired
      = [[("status", "act")]] :=
  ⟨by decide,
    (c9_debounce_single_fetch (0, "status", "a")
      [(100, "status", "ac"), (200, "status", "act")] [] 0 (by decide)).1.trans
      (by decide)⟩

/- ## Delete lemmas (C5) -/

theorem contains_true_iff_mem {α : Type} [BEq α] [LawfulBEq α] {l : List α}
    {a : α} : l.contains a = true ↔ a ∈ l := by
  induction l with
  | nil => simp
  | cons b t ih => simp [List.contains_cons, ih, List.mem_cons]

theorem jsFindIndex_eq_some {α : Type} {p : α → Bool} {l : List α} {i : Nat}
    (h : jsFindIndex p l = some i) :
    ∃ hi : i < l.length, p (l[i]) = true := by
  induction l generalizing i with
  | nil => simp [jsFindIndex] at h
  | cons a t ih =>
    by_cases hp : p a
    · unfold jsFindIndex at h
      rw [if_pos hp] at h
      cases h
      exact ⟨by simp, hp⟩
    · unfold jsFindIndex at h
      rw [if_neg hp] at h
      obtain ⟨j, hj, rfl⟩ := Option.map_eq_some'.mp h
      obtain ⟨hlt, hpj⟩ := ih hj
      exact ⟨by simpa using Nat.succ_lt_succ hlt, by simpa using hpj⟩

theorem jsFindIndex_isSome_of_mem {α : Type} {p : α → Bool} {l : List α}
    {a : α} (ha : a ∈ l) (hp : p a = true) : (jsFindIndex p l).isSome := by
  induction l with
  | nil => cases ha
  | cons b t ih =>
    unfold jsFindIndex
    by_cases hb : p b
    · rw [if_pos hb]
      rfl
    · rw [if_neg hb]
      rcases List.mem_cons.mp ha with rfl | ht
      · exact absurd hp hb
      · have hs := ih ht
        cases hf : jsFindIndex p t with
        | none => rw [hf] at hs; cases hs
        | some j => rfl

theorem filterIdxAux_eq_filter {α : Type} (l : List α) :
    ∀ (i0 : Nat) (keep : Nat → Bool) (q : α → Bool),
    (∀ j (hj : j < l.length), keep (i0 + j) = q (l[j])) →
    filterIdxAux keep i0 l = l.filter q := by
  induction l with
  | nil => intros; rfl
  | cons a t ih =>
    intro i0 keep q hkq
    have h0 : keep i0 = q a := by simpa using hkq 0 (by simp)
    have ht : filterIdxAux keep (i0 + 1) t = t.filter q := by
      apply ih
      intro j hj
      have h := hkq (j + 1) (by simpa using Nat.succ_lt_succ hj)
      rw [show i0 + 1 + j = i0 + (j + 1) from by omega]
      simpa using h
    show (if keep i0 then a :: filterIdxAux keep (i0 + 1) t
      else filterIdxAux keep (i0 + 1) t) = _
    rw [List.filter_cons, ht, h0]

theorem length_filter_not_add {α : Type} (p : α → Bool) (l : List α) :
    (l.filter (fun a => ! p a)).length + (l.filter p).length = l.length := by
  induction l with
  | nil => rfl
  | cons a t ih =>
    cases hpa : p a <;> simp [List.filter_cons, hpa] <;> omega

/-- With pairwise-distinct cached identities and every selected identity
present, keeping index `j` is the same as keeping rows whose identity is not
selected. -/
theorem delete_keep_iff (cols pkCols : List String) (selectedIds : List String)
    (rows : List (List Value))
    (hnd : (rows.map (rowIdPos cols pkCols)).Nodup)
    (j : Nat) (hj : j < rows.length) :
    ((selectedIds.map
        (fun id => jsFindIndex (fun row => rowIdPos cols pkCols row == id) rows)).contains
      (some j))
      = selectedIds.contains (rowIdPos cols pkCols (rows[j])) := by
  have hiff : ∀ (x y : Bool), (x = true ↔ y = true) → x = y := by decide
  apply hiff
  constructor
  · intro h
    have hmem := contains_true_iff_mem.mp h
    obtain ⟨id, hid, hf⟩ := List.mem_map.mp hmem
    obtain ⟨hlt, hp⟩ := jsFindIndex_eq_some hf
    have heq : rowIdPos cols pkCols (rows[j]) = id := by simpa using hp
    exact contains_true_iff_mem.mpr (heq ▸ hid)
  · intro h
    have hid : rowIdPos cols pkCols (rows[j]) ∈ selectedIds :=
      contains_true_iff_mem.mp h
    have hmemrow : rows[j] ∈ rows := List.getElem_mem hj
    have hsome := jsFindIndex_isSome_of_mem (p := fun row =>
        rowIdPos cols pkCols row == rowIdPos cols pkCols (rows[j]))
      hmemrow (by simp)
    obtain ⟨j2, hj2⟩ := Option.isSome_iff_exists.mp hsome
    obtain ⟨hlt2, hp2⟩ := jsFindIndex_eq_some hj2
    have heq2 : rowIdPos cols pkCols (rows[j2]) = rowIdPos cols pkCols (rows[j]) := by
      simpa using hp2
    have hlen2 : j2 < (rows.map (rowIdPos cols pkCols)).length := by simpa using hlt2
    have hlenj : j < (rows.map (rowIdPos cols pkCols)).length := by simpa using hj
    have hmap : (rows.map (rowIdPos cols pkCols))[j2] = (rows.map (rowIdPos cols pkCols))[j] := by
      rw [List.getElem_map, List.getElem_map]
      exact heq2
    have hjj : j2 = j := (List.Nodup.getElem_inj_iff hnd).mp hmap
    subst hjj
    exact contains_true_iff_mem.mpr (List.mem_map.mpr ⟨_, hid, hj2⟩)

/-- With distinct identities, selected and present, the number of rows whose
identity is selected equals the number of selected identities. -/
theorem length_filter_selected (cols pkCols : List String)
    (selectedIds : List String) (rows : List (List Value))
    (hnd : (rows.map (rowIdPos cols pkCols)).Nodup)
    (hsel : selectedIds.Nodup)
    (hsub : ∀ id ∈ selectedIds, id ∈ rows.map (rowIdPos cols pkCols)) :
    (rows.filter (fun r => selectedIds.contains (rowIdPos cols pkCols r))).length
      = selectedIds.length := by
  have hflip : (rows.filter (fun r => selectedIds.contains (rowIdPos cols pkCols r)))
      = rows.filter ((fun s => selectedIds.contains s) ∘ (rowIdPos cols pkCols)) := rfl
  have hlen : (rows.filter
      ((fun s => selectedIds.contains s) ∘ (rowIdPos cols pkCols))).length
      = ((rows.map (rowIdPos cols pkCols)).filter (fun s => selectedIds.contains s)).length := by
    rw [List.filter_map]
    simp
  rw [hflip, hlen]
  set R := rows.map (rowIdPos cols pkCols) with hR
  set F := R.filter (fun s => selectedIds.contains s) with hF
  have hFnd : F.Nodup := List.Nodup.filter _ hnd
  have hmemF : ∀ x, x ∈ F ↔ x ∈ selectedIds := by
    intro x
    constructor
    · intro hx
      have := List.of_mem_filter hx
      exact contains_true_iff_mem.mp this
    · intro hx
      exact List.mem_filter.mpr ⟨hsub x hx, contains_true_iff_mem.mpr hx⟩
  have hfin : F.toFinset = selectedIds.toFinset := by
    apply Finset.ext
    intro x
    simp only [List.mem_toFinset]
    exact hmemF x
  calc F.length = F.toFinset.card := (List.toFinset_card_of_nodup hFnd).symm
    _ = selectedIds.toFinset.card := by rw [hfin]
    _ = selectedIds.length := List.toFinset_card_of_nodup hsel

/- ## Claim theorems C5 -/

/-- C5 counterexample: the claim fails on duplicate cached identities (a
state load-more can produce): deleting identity `"5"` from a cache holding
two rows with identity `"5"` removes only the first match, so a row whose
identity is in the selected set stays cached — and `totalCount` drops by the
number of selected ids (1), not by "rows whose identity is in the set" (2).
The claim as stated, quantified over every cached row list, is therefore
false. -/
theorem c5_delete_counterexample :
    (handleDelete ["id"] ["id"] ["5"] [[Value.vnum 5], [Value.vnum 5]] 40).1
      = [[Value.vnum 5]]
    ∧ ([[Value.vnum 5], [Value.vnum 5]] : List (List Value)).filter
        (fun r => ! (["5"] : List String).contains (rowIdPos ["id"] ["id"] r))
      = ([] : List (List Value))
    ∧ (handleDelete ["id"] ["id"] ["5"] [[Value.vnum 5], [Value.vnum 5]] 40).1
      ≠ ([[Value.vnum 5], [Value.vnum 5]] : List (List Value)).filter
        (fun r => ! (["5"] : List String).contains (rowIdPos ["id"] ["id"] r)) := by
  refine ⟨by decide, by decide, by decide⟩

/-- C5 (amended): when the cached identities are pairwise distinct and every
selected identity is present in the cache (the state the UI produces:
selection keys come from the cached rows and pages have not duplicated a
key), the delete operation removes exactly the cached rows whose identity is
selected, the number of rows actually removed equals the number of selected
identities, and `totalCount` decreases by exactly that number. -/
theorem c5_delete_removes_selected (cols pkCols : List String)
    (selectedIds : List String) (rows : List (List Value)) (totalCount : Int)
    (hnd : (rows.map (rowIdPos cols pkCols)).Nodup)
    (hsel : selectedIds.Nodup)
    (hsub : ∀ id ∈ selectedIds, id ∈ rows.map (rowIdPos cols pkCols))
    (hcnt : (selectedIds.length : Int) ≤ totalCount) :
    (handleDelete cols pkCols selectedIds rows totalCount).1
      = rows.filter (fun r => ! selectedIds.contains (rowIdPos cols pkCols r))
    ∧ rows.length - (handleDelete cols pkCols selectedIds rows totalCount).1.length
      = selectedIds.length
    ∧ (handleDelete cols pkCols selectedIds rows totalCount).2
      = totalCount - (selectedIds.length : Int) := by
  have hrows : (handleDelete cols pkCols selectedIds rows totalCount).1
      = rows.filter (fun r => ! selectedIds.contains (rowIdPos cols pkCols r)) := by
    show filterIdx _ rows = _
    unfold filterIdx
    apply filterIdxAux_eq_filter
    intro j hj
    have h := delete_keep_iff cols pkCols selectedIds rows hnd j hj
    simp only [Nat.zero_add]
    rw [h]
  refine ⟨hrows, ?_, ?_⟩
  · rw [hrows]
    have hadd := length_filter_not_add
      (fun r => selectedIds.contains (rowIdPos cols pkCols r)) rows
    have hlen := length_filter_selected cols pkCols selectedIds rows hnd hsel hsub
    omega
  · show max 0 (totalCount - (selectedIds.length : Int)) = _
    omega

/-- C5 witness: the spec's scenario — deleting identities `{"5","9"}` from a
cache holding rows with ids 5, 7, 9 and `totalCount = 40` leaves only row 7
and `totalCount = 38`. -/
theorem c5_delete_removes_selected_witness :
    (handleDelete ["id"] ["id"] ["5", "9"]
        [[Value.vnum 5], [Value.vnum 7], [Value.vnum 9]] 40).1
      = [[Value.vnum 7]]
    ∧ (handleDelete ["id"] ["id"] ["5", "9"]
        [[Value.vnum 5], [Value.vnum 7], [Value.vnum 9]] 40).2 = 38 := by
  have h := c5_delete_removes_selected ["id"] ["id"] ["5", "9"]
    [[Value.vnum 5], [Value.vnum 7], [Value.vnum 9]] 40
    (by decide) (by decide) (by decide) (by decide)
  exact ⟨h.1.trans (by decide), h.2.2.trans (by decide)⟩

end Bestgres
